import Mathlib

/-!
Verification of the `backup_influxdb` worker of SysAdminToolkit against its
specification.  The Python modules `src/backup.py`, `src/influx_client.py`
and `src/config.py` are shallowly embedded below: timestamps and timedeltas
are integers counting microseconds (Python `datetime` has microsecond
resolution), Python dictionaries become association lists, exceptions become
`Except`, and the dynamic typing that matters for one claim is captured by a
small sum type of runtime values.
-/

namespace BackupInfluxdb

/-- Microseconds in one second, the resolution of Python `timedelta`. -/
def usPerSecond : Int := 1000000

/-- Microseconds in one minute. -/
def usPerMinute : Int := 60 * usPerSecond

/-- Microseconds in one hour. -/
def usPerHour : Int := 60 * usPerMinute

/-- Microseconds in one day. -/
def usPerDay : Int := 24 * usPerHour

/-- Microseconds in one week. -/
def usPerWeek : Int := 7 * usPerDay

/-- Runtime values of the embedded Python fragment.  `timedelta` carries its
length in microseconds; `null` is Python `None`. -/
inductive PyVal where
  | null : PyVal
  | str : String → PyVal
  | int : Int → PyVal
  | bool : Bool → PyVal
  | timedelta : Int → PyVal
  deriving Repr, DecidableEq

/-- The Python exceptions the embedded fragment can raise. -/
inductive PyErr where
  | valueError : String → PyErr
  | typeError : String → PyErr
  | indexError : String → PyErr
  | keyError : String → PyErr
  deriving Repr, DecidableEq

/-- The unit characters accepted by `BackupManager._parse_duration`,
from the character class `[smhdwyM]` of its regular expression. -/
def durationUnitChars : List Char := ['s', 'm', 'h', 'd', 'w', 'y', 'M']

/-- Numeric value of a run of decimal digit characters (Python `int` on a
digit string). -/
def digitsVal (ds : List Char) : Nat :=
  ds.foldl (fun a c => a * 10 + (c.toNat - 48)) 0

/-- Backtracking step of the regex engine on `(\d+)([smhdwyM])`: `k` digits
of `cs` are currently consumed by the greedy `\d+`; if the next character is
a unit the match succeeds, otherwise `\d+` gives one character back.  The
match needs at least one digit, so `k = 0` fails. -/
def backtrackSearch (cs : List Char) : Nat → Option (Nat × Char)
  | 0 => none
  | k + 1 =>
    match (cs.drop (k + 1)).head? with
    | some c =>
      if c ∈ durationUnitChars then some (digitsVal (cs.take (k + 1)), c)
      else backtrackSearch cs k
    | none => backtrackSearch cs k

/-- `re.match(r"(\d+)([smhdwyM])", s)`: anchored at the start of `s`, the
greedy `\d+` first consumes the maximal digit run and backtracks from
there; the end of the string is not anchored, so trailing characters after
the matched unit are ignored. -/
def regexMatchDuration (s : String) : Option (Nat × Char) :=
  backtrackSearch s.toList (s.toList.takeWhile Char.isDigit).length

/-- Microseconds denoted by `value` counts of duration unit `unit`, as
assigned by the `if unit ==` cascade of `_parse_duration`: months are
exactly 30 days and years exactly 365 days. -/
def durationUnitValue (value : Nat) (unit : Char) : Int :=
  if unit = 's' then value * usPerSecond
  else if unit = 'm' then value * usPerMinute
  else if unit = 'h' then value * usPerHour
  else if unit = 'd' then value * usPerDay
  else if unit = 'w' then value * usPerWeek
  else if unit = 'M' then value * 30 * usPerDay
  else value * 365 * usPerDay

/-- `BackupManager._parse_duration`: match `(\d+)([smhdwyM])` at the start
of the string, raise `ValueError` when there is no match, otherwise convert
via the unit cascade.  (The final fallback `raise ValueError` for an
unknown unit is unreachable because the regex only yields the seven unit
characters.) -/
def parseDuration (s : String) : Except PyErr Int :=
  match regexMatchDuration s with
  | none => .error (.valueError ("Formato de duracion invalido: " ++ s))
  | some (value, unit) => .ok (durationUnitValue value unit)

/-- Python `int(s)` restricted to the ASCII-digit strings that occur in
duration thresholds: a non-empty digit string parses, anything else raises
`ValueError`. -/
def pyIntOfString (s : String) : Except PyErr Int :=
  if s ≠ "" ∧ s.toList.all Char.isDigit then .ok (digitsVal s.toList : Nat)
  else .error (.valueError ("invalid literal for int: " ++ s))

/-- `BackupManager._is_obsolete(last_timestamp_str, threshold_str)`, from
the already-parsed last timestamp (in microseconds) and the runtime value
actually passed as `threshold_str`.  The body does string slicing
(`threshold_str[:-1]`, `threshold_str[-1]`) and therefore raises
`TypeError` when the argument is not a string (its caller passes the
`timedelta` produced by `_parse_duration`).  On a string it lowercases the
unit (so `M` is read as minutes here), dispatches the same cascade, and
returns whether `now_utc - last_time > delta`; an unknown unit logs a
warning and returns `False`. -/
def isObsolete (nowUtc lastTime : Int) (threshold : PyVal) : Except PyErr Bool :=
  match threshold with
  | .str ts =>
    match pyIntOfString (String.mk ts.toList.dropLast) with
    | .error e => .error e
    | .ok num =>
      match ts.toList.getLast? with
      | none => .error (.indexError "string index out of range")
      | some c =>
        let unit := c.toLower
        let delta : Option Int :=
          if unit = 's' then some (num * usPerSecond)
          else if unit = 'm' then some (num * usPerMinute)
          else if unit = 'h' then some (num * usPerHour)
          else if unit = 'd' then some (num * usPerDay)
          else if unit = 'w' then some (num * usPerWeek)
          else if unit = 'M' then some (num * 30 * usPerDay)
          else if unit = 'y' then some (num * 365 * usPerDay)
          else none
        match delta with
        | some d => .ok (decide (nowUtc - lastTime > d))
        | none => .ok false
  | _ => .error (.typeError "datetime.timedelta object is not subscriptable")

/-- Outcome of the incremental-mode resume step of
`BackupManager._process_measurement` for one measurement. -/
inductive ResumeOutcome where
  | skip : ResumeOutcome
  | startAt : Int → ResumeOutcome
  | raised : PyErr → ResumeOutcome
  deriving Repr, DecidableEq

/-- The incremental branch of `BackupManager._process_measurement`
(lines 290-346): given the configured `options.incremental.obsolete_threshold`
(`none` or the string, empty string falsy), the current UTC time, the
destination's last timestamp and the source's first timestamp for the
active field set (all times in microseconds).  The `try` around the
obsolescence check catches only `ValueError`; the check itself calls
`_is_obsolete` with the parsed `timedelta` as second argument.  When the
destination is empty, the start time is the source's first timestamp minus
one microsecond, or the measurement is skipped when the source is empty
too. -/
def incrementalResume (obsoleteThreshold : Option String) (nowUtc : Int)
    (lastTs : Option Int) (firstTs : Option Int) : ResumeOutcome :=
  match lastTs with
  | some tLast =>
    match obsoleteThreshold with
    | none => .startAt tLast
    | some ts =>
      if ts = "" then .startAt tLast
      else
        match (do
          let td ← parseDuration ts
          isObsolete nowUtc tLast (PyVal.timedelta td) : Except PyErr Bool) with
        | .ok true => .skip
        | .ok false => .startAt tLast
        | .error (.valueError _) => .startAt tLast
        | .error e => .raised e
  | none =>
    match firstTs with
    | none => .skip
    | some tFirst => .startAt (tFirst - 1)

/-- Modelled from the spec: the error taxonomy of §4.1/§7 (`Unreachable`,
`QueryError`, `WriteRejected`, `AuthFailed`); the source raises library
exceptions and has no classification of its own. -/
inductive OpErr where
  | unreachable : OpErr
  | queryError : OpErr
  | writeRejected : OpErr
  | authFailed : OpErr
  deriving Repr, DecidableEq

/-- Modelled from the spec: `Unreachable` is retryable, the rest are fatal
within one operation. -/
def OpErr.retryable : OpErr → Bool
  | .unreachable => true
  | _ => false

/-- Result of one run of the retry wrapper: the final outcome, the number
of attempts made, and the total time spent in `time.sleep`. -/
structure RetryResult (ε α : Type) where
  outcome : Except ε α
  attempts : Nat
  sleptFor : Nat

/-- The body of `BackupManager._execute_with_retry` at loop index
`attempt`, with `remaining = retries - attempt` further loop iterations to
go: call the function (its behaviour per attempt is `func`); on success
return; on any exception (`except Exception` — every exception alike),
sleep `retryDelay` and continue while `attempt < retries`
(i.e. `remaining > 0`), otherwise re-raise the final exception. -/
def executeWithRetryGo {ε α : Type} (retryDelay : Nat)
    (func : Nat → Except ε α) (attempt : Nat) :
    (remaining : Nat) → RetryResult ε α
  | 0 =>
    match func attempt with
    | .ok a => ⟨.ok a, 1, 0⟩
    | .error e => ⟨.error e, 1, 0⟩
  | r + 1 =>
    match func attempt with
    | .ok a => ⟨.ok a, 1, 0⟩
    | .error _ =>
      let rest := executeWithRetryGo retryDelay func (attempt + 1) r
      ⟨rest.outcome, rest.attempts + 1, rest.sleptFor + retryDelay⟩

/-- `BackupManager._execute_with_retry`: the loop
`for attempt in range(self.retries + 1)` starts at attempt 0 with
`retries` retries left, so at most `retries + 1` calls are made. -/
def executeWithRetry {ε α : Type} (retries retryDelay : Nat)
    (func : Nat → Except ε α) : RetryResult ε α :=
  executeWithRetryGo retryDelay func 0 retries

/-- The single-quote character, written by code point to keep query strings
faithful to the InfluxQL the source emits. -/
def sq : String := String.singleton (Char.ofNat 39)

/-- A field name wrapped in double quotes, as in the SELECT lists built by
both query builders. -/
def quoteField (f : String) : String := "\"" ++ f ++ "\""

/-- `InfluxClient.build_query` — the builder `_transfer_data` actually
calls.  Note the lower time bound `time >= 'start_time'`. -/
def InfluxClient.buildQuery (dbName measurement startTime endTime : String)
    (fields : List String) (groupByInterval : String) : String :=
  let queryFields := String.intercalate ", " (fields.map quoteField)
  let query := "SELECT " ++ queryFields ++ " FROM \"" ++ dbName ++
    "\".\"autogen\".\"" ++ measurement ++ "\" WHERE time >= " ++ sq ++
    startTime ++ sq ++ " AND time <= " ++ sq ++ endTime ++ sq
  if groupByInterval ≠ "" then
    query ++ " GROUP BY time(" ++ groupByInterval ++ "),*"
  else
    query ++ " GROUP BY *"

/-- `BackupManager._build_query` — the strict-bound builder
(`time > 'start_time'`, per its comment "Usamos > para no duplicar el
último punto ya existente").  No caller invokes it; `none` models its
early `return None` on an empty field list.  `groupBy` is the value of
`config.get("source.group_by")`, empty string falsy. -/
def BackupManager.buildQuery (measurement : String)
    (startTime endTime : Option String) (fields : List String)
    (groupBy : Option String) : Option String :=
  if fields = [] then none
  else
    let selectClause := String.intercalate ", " (fields.map quoteField)
    let query := "SELECT " ++ selectClause ++ " FROM \"" ++ measurement ++ "\""
    let timeConditions :=
      (match startTime with
       | some st => if st ≠ "" then ["time > " ++ sq ++ st ++ sq] else []
       | none => []) ++
      (match endTime with
       | some et => if et ≠ "" then ["time <= " ++ sq ++ et ++ sq] else []
       | none => [])
    let query :=
      if timeConditions ≠ [] then
        query ++ " WHERE " ++ String.intercalate " AND " timeConditions
      else query
    match groupBy with
    | some gb =>
      if gb ≠ "" then some (query ++ " GROUP BY *, time(" ++ gb ++ ")")
      else some (query ++ " GROUP BY *")
    | none => some (query ++ " GROUP BY *")

/-- Modelled from the spec: the TSDB's evaluation (§6 wire protocol) of the
clause `time >= 'a' AND time <= 'b'` at a row timestamped `t`. -/
def timeFilterGeLe (a b t : Int) : Bool := decide (a ≤ t) && decide (t ≤ b)

/-- Modelled from the spec: the TSDB's evaluation of the clause
`time > 'a' AND time <= 'b'` the spec prescribes for pages. -/
def timeFilterGtLe (a b t : Int) : Bool := decide (a < t) && decide (t ≤ b)

/-- The Unix epoch, `datetime(1970, 1, 1)`, origin of the microsecond
scale. -/
def epochStart : Int := 0

/-- The while-loop of `BackupManager._calculate_date_ranges`: emit
`(current_start, min(current_start + days, end))` windows while
`current_start < end`.  The source loop does not terminate when
`days <= 0`, so the embedding guards on `0 < days` (the claims only
concern positive page widths). -/
def calculateDateRangesLoop (currentStart endTime : Int) (days : Int) :
    List (Int × Int) :=
  if h : currentStart < endTime ∧ 0 < days then
    (currentStart, min (currentStart + days * usPerDay) endTime) ::
      calculateDateRangesLoop (min (currentStart + days * usPerDay) endTime)
        endTime days
  else []
termination_by (endTime - currentStart).toNat
decreasing_by
  have hpos : 0 < days * usPerDay :=
    mul_pos h.2 (by norm_num [usPerDay, usPerHour, usPerMinute, usPerSecond])
  omega

/-- `BackupManager._calculate_date_ranges`: a missing start anchors at the
epoch, a missing end anchors at `datetime.now(timezone.utc)`. -/
def calculateDateRanges (startTs endTs : Option Int) (nowUtc : Int)
    (days : Int) : List (Int × Int) :=
  calculateDateRangesLoop (startTs.getD epochStart) (endTs.getD nowUtc) days

/-- A series key of an InfluxDB `ResultSet`: measurement name and tag
map. -/
structure SeriesKey where
  name : String
  tags : List (String × String)
  deriving Repr, DecidableEq

/-- A result row: column name to value, the `time` column included. -/
abbrev Row := List (String × PyVal)

/-- An InfluxDB `ResultSet` as `result.items()` yields it: pairs of series
key and row sequence. -/
abbrev ResultSet := List (SeriesKey × List Row)

/-- A point as assembled by `extract_points_from_result`. -/
structure Point where
  measurement : String
  tags : List (String × String)
  time : PyVal
  fields : List (String × PyVal)
  deriving Repr, DecidableEq

/-- The dict comprehension of `extract_points_from_result`:
`{k: v for k, v in p.items() if k != "time" and v is not None}`. -/
def rowFields (p : Row) : List (String × PyVal) :=
  p.filter fun kv => decide (kv.1 ≠ "time") && decide (kv.2 ≠ PyVal.null)

/-- The inner loop of `InfluxClient.extract_points_from_result` over the
rows of one series: filter each row down to its non-`time`, non-null
columns, read `p["time"]` (a `KeyError` when absent), and keep the point
only when its field map is non-empty. -/
def extractSeriesPoints (key : SeriesKey) : List Row → Except PyErr (List Point)
  | [] => .ok []
  | p :: rest =>
    let fields := rowFields p
    match p.lookup "time" with
    | none => .error (.keyError "time")
    | some t =>
      match extractSeriesPoints key rest with
      | .error e => .error e
      | .ok tail =>
        if fields = [] then .ok tail
        else .ok (⟨key.name, key.tags, t, fields⟩ :: tail)

/-- The outer loop of `extract_points_from_result` over
`result.items()`. -/
def extractAllSeries : ResultSet → Except PyErr (List Point)
  | [] => .ok []
  | (key, rows) :: rest =>
    match extractSeriesPoints key rows with
    | .error e => .error e
    | .ok here =>
      match extractAllSeries rest with
      | .error e => .error e
      | .ok tail => .ok (here ++ tail)

/-- `InfluxClient.extract_points_from_result`: an absent (`None`) result —
as returned by `query_data` after a caught query error — yields no
points. -/
def extractPointsFromResult : Option ResultSet → Except PyErr (List Point)
  | none => .ok []
  | some rs => extractAllSeries rs

/-- The exceptions the wrapped InfluxDB library can raise:
`InfluxDBClientError` (malformed or rejected queries, auth and write
rejections) and transport `ConnectionError`. -/
inductive ClientErr where
  | influxDBClientError : String → ClientErr
  | connectionError : String → ClientErr
  deriving Repr, DecidableEq

/-- `InfluxClient.query_data`: run the query (its behaviour is `backend`);
an `InfluxDBClientError` is caught, logged and turned into `None`, while
transport errors propagate. -/
def queryData (backend : Except ClientErr ResultSet) :
    Except ClientErr (Option ResultSet) :=
  match backend with
  | .ok rs => .ok (some rs)
  | .error (.influxDBClientError _) => .ok none
  | .error e => .error e

/-- `InfluxClient.write_points`: empty input returns without writing;
otherwise a raised `ConnectionError`/`InfluxDBClientError` is logged and
re-raised.  The returned flag records whether a write happened. -/
def writePoints (writer : Except ClientErr Unit) (points : List Point) :
    Except ClientErr Bool :=
  if points = [] then .ok false
  else
    match writer with
    | .ok _ => .ok true
    | .error e => .error e

/-- An exception escaping `_transfer_data`: a client exception or an
embedded-Python error from point extraction. -/
inductive TransferErr where
  | client : ClientErr → TransferErr
  | py : PyErr → TransferErr
  deriving Repr, DecidableEq

/-- Outcome of `BackupManager._transfer_data` for one page. -/
inductive TransferOutcome where
  | emptyPeriod : TransferOutcome
  | wrote : List Point → TransferOutcome
  | raised : TransferErr → TransferOutcome
  deriving Repr, DecidableEq

/-- `BackupManager._transfer_data` for one page: query the source through
the retry wrapper, extract points, return early when none, else write
through the retry wrapper; any exception is logged and re-raised
(`raised`).  `queryBackend`/`writerBackend` give the underlying client
behaviour at each retry attempt. -/
def transferData (retries retryDelay : Nat)
    (queryBackend : Nat → Except ClientErr ResultSet)
    (writerBackend : Nat → Except ClientErr Unit) : TransferOutcome :=
  let qres := executeWithRetry retries retryDelay
    (fun i => queryData (queryBackend i))
  match qres.outcome with
  | .error e => .raised (.client e)
  | .ok results =>
    match extractPointsFromResult results with
    | .error pe => .raised (.py pe)
    | .ok points =>
      if points = [] then .emptyPeriod
      else
        let wres := executeWithRetry retries retryDelay
          (fun i => writePoints (writerBackend i) points)
        match wres.outcome with
        | .error e => .raised (.client e)
        | .ok _ => .wrote points

/-- A loaded YAML configuration value. -/
inductive Yaml where
  | dict : List (String × Yaml) → Yaml
  | str : String → Yaml
  | int : Int → Yaml
  | bool : Bool → Yaml
  | null : Yaml

/-- Dictionary lookup, `key in value` / `value[key]`. -/
def yamlLookup : List (String × Yaml) → String → Option Yaml
  | [], _ => none
  | (k, v) :: rest, key => if k = key then some v else yamlLookup rest key

/-- The loop body of `Config.get`: walk the split key path, descending
while the current value is a dict containing the key, and early-return the
default otherwise. -/
def configGetLoop (value : Yaml) (keys : List String) (default : Yaml) : Yaml :=
  match keys with
  | [] => value
  | k :: ks =>
    match value with
    | .dict d =>
      match yamlLookup d k with
      | some v => configGetLoop v ks default
      | none => default
    | _ => default

/-- `Config.get(key_path, default)`: split on dots and walk. -/
def configGet (cfg : Yaml) (keyPath : String) (default : Yaml) : Yaml :=
  configGetLoop cfg (keyPath.splitOn ".") default

/-- Specification-side reading of a dotted lookup: `some` of the value when
every segment indexes an existing dictionary key, `none` as soon as a
segment is missing or the walk reaches a non-dictionary. -/
def yamlWalk : Yaml → List String → Option Yaml
  | v, [] => some v
  | .dict d, k :: ks => (yamlLookup d k).bind (fun v => yamlWalk v ks)
  | _, _ :: _ => none

/-- The tiling shape claimed for pagination: the windows are contiguous
(each one starts where the previous one ends), strictly ascending, of
length exactly `step` except the last, which is truncated so that it ends
exactly at `e`; an empty tiling covers an empty interval. -/
inductive Tiling (step : Int) : Int → Int → List (Int × Int) → Prop where
  | nil : ∀ s e, e ≤ s → Tiling step s e []
  | last : ∀ s e, s < e → e ≤ s + step → Tiling step s e [(s, e)]
  | cons : ∀ s e rest, s + step < e → Tiling step (s + step) e rest →
      Tiling step s e ((s, s + step) :: rest)

/-! ## Theorems -/

/-- C1: the page query actually sent by `_transfer_data` is built by
`InfluxClient.build_query` and carries the non-strict lower bound
`time >= 'p_start'` — not the claimed strict `time > 'p_start'`.  The
strict-bound builder `BackupManager._build_query` exists but is never
called.  At the page boundary itself (`t = p_start`, the destination's
last point in incremental mode) the emitted clause selects the row while
the claimed clause would not, so the last destination point is re-read. -/
theorem transfer_query_uses_nonstrict_lower_bound :
    InfluxClient.buildQuery "db" "m" "2024-01-01T00:00:00Z"
        "2024-01-08T00:00:00Z" ["v"] "" =
      "SELECT \"v\" FROM \"db\".\"autogen\".\"m\" WHERE time >= " ++ sq ++
        "2024-01-01T00:00:00Z" ++ sq ++ " AND time <= " ++ sq ++
        "2024-01-08T00:00:00Z" ++ sq ++ " GROUP BY *" ∧
    BackupManager.buildQuery "m" (some "2024-01-01T00:00:00Z")
        (some "2024-01-08T00:00:00Z") ["v"] none =
      some ("SELECT \"v\" FROM \"m\" WHERE time > " ++ sq ++
        "2024-01-01T00:00:00Z" ++ sq ++ " AND time <= " ++ sq ++
        "2024-01-08T00:00:00Z" ++ sq ++ " GROUP BY *") ∧
    timeFilterGeLe 100 200 100 = true ∧
    timeFilterGtLe 100 200 100 = false :=
  ⟨rfl, rfl, by decide, by decide⟩

/-- C2: with a valid `options.incremental.obsolete_threshold` of `"30d"`
and an existing destination timestamp older than the threshold, the
incremental resume step does not skip the measurement: it raises an
uncaught `TypeError`, because `_process_measurement` passes the parsed
`timedelta` to `_is_obsolete`, which slices its argument as a string, and
the surrounding `try` catches only `ValueError`.  The obsolescence check
therefore hard-fails the measurement. -/
theorem incremental_obsolete_check_hard_fails :
    incrementalResume (some "30d") (1000 * usPerDay) (some 0) none =
      .raised (.typeError "datetime.timedelta object is not subscriptable") ∧
    1000 * usPerDay - 0 > 30 * usPerDay ∧
    ResumeOutcome.raised
        (.typeError "datetime.timedelta object is not subscriptable") ≠
      ResumeOutcome.skip :=
  ⟨by decide, by decide, by decide⟩

/-- C7: in incremental mode with an empty destination, the measurement is
skipped when the source has no first timestamp either, and otherwise the
transfer starts exactly one microsecond before the source's first
timestamp, so the strict predicate `time > t_start` includes the first
source point. -/
theorem incremental_resume_first_point_inclusive (ots : Option String)
    (nowUtc tFirst : Int) :
    incrementalResume ots nowUtc none none = .skip ∧
    incrementalResume ots nowUtc none (some tFirst) = .startAt (tFirst - 1) ∧
    timeFilterGtLe (tFirst - 1) tFirst tFirst = true := by
  refine ⟨rfl, rfl, ?_⟩
  simp only [timeFilterGtLe, Bool.and_eq_true, decide_eq_true_eq]
  omega

/-- C8 counterexample: the duration regular expression is not anchored at
the end of the string, so the well-formed prefix `"30d"` followed by the
trailing character `"x"` parses as 30 days instead of raising
`ValueError`. -/
theorem parse_duration_accepts_trailing_garbage :
    parseDuration "30dx" = .ok (30 * usPerDay) := rfl

/-- C3 counterexample: a fatal `QueryError` raised at every attempt is
still retried: with `retries = 3` and `retry_delay = 5` the executor makes
4 attempts and sleeps 15 seconds before the error finally propagates,
instead of surfacing it on the first occurrence. -/
theorem retry_executor_retries_fatal_error :
    (executeWithRetry 3 5
        (fun _ => (.error .queryError : Except OpErr Unit))).attempts = 4 ∧
    (executeWithRetry 3 5
        (fun _ => (.error .queryError : Except OpErr Unit))).outcome =
      .error .queryError ∧
    (executeWithRetry 3 5
        (fun _ => (.error .queryError : Except OpErr Unit))).sleptFor = 3 * 5 ∧
    OpErr.queryError.retryable = false :=
  ⟨rfl, rfl, rfl, rfl⟩

/-- C5 counterexample: when the source rejects the page query
(`InfluxDBClientError`) at every attempt, `_transfer_data` completes the
page as if it were empty — `query_data` swallows the error into `None`,
extraction yields no points, and the function returns without raising —
instead of failing the measurement; the retry wrapper sees a successful
call and makes exactly one attempt. -/
theorem query_error_completes_measurement_as_empty :
    transferData 3 5 (fun _ => .error (.influxDBClientError "malformed"))
        (fun _ => .ok ()) = .emptyPeriod ∧
    (executeWithRetry 3 5 (fun _ => queryData
        (.error (.influxDBClientError "malformed")))).attempts = 1 :=
  ⟨rfl, rfl⟩

/-- C4 counterexample: point extraction applies no restriction to the
active field set.  For `F = ["v"]`, a result row carrying the extra column
`"mean_v"` produces a point whose fields contain `"mean_v" ∉ F`. -/
theorem extract_does_not_restrict_to_field_set :
    extractPointsFromResult (some [(⟨"m", [("host", "a")]⟩,
        [[("time", PyVal.str "2024-01-01T00:00:00Z"), ("v", PyVal.int 1),
          ("mean_v", PyVal.int 2)]])]) =
      .ok [⟨"m", [("host", "a")], PyVal.str "2024-01-01T00:00:00Z",
        [("v", PyVal.int 1), ("mean_v", PyVal.int 2)]⟩] ∧
    "mean_v" ∉ ["v"] :=
  ⟨rfl, by decide⟩

/-- C10: `Config.get` is total over a loaded configuration: it returns the
configured value when every dotted segment indexes an existing dictionary
key, and the supplied default as soon as a segment is missing or the walk
reaches a non-dictionary — exactly the defaulted specification-side
lookup `yamlWalk`. -/
theorem config_get_total_lookup (cfg : Yaml) (keyPath : String)
    (default : Yaml) :
    configGet cfg keyPath default =
      (yamlWalk cfg (keyPath.splitOn ".")).getD default := by
  suffices h : ∀ ks v, configGetLoop v ks default =
      (yamlWalk v ks).getD default from h _ _
  intro ks
  induction ks with
  | nil => intro v; cases v <;> rfl
  | cons k ks ih =>
    intro v
    cases v with
    | dict d =>
      simp only [configGetLoop, yamlWalk]
      cases hlk : yamlLookup d k with
      | none => rfl
      | some w => simpa using ih w
    | str s => rfl
    | int n => rfl
    | bool b => rfl
    | null => rfl

/-- When every attempt in scope fails, the retry loop exhausts its budget:
it returns the final attempt's outcome after `remaining + 1` calls with
`remaining` sleeps of `retryDelay`. -/
theorem executeWithRetryGo_all_fail {ε α : Type} (retryDelay : Nat)
    (func : Nat → Except ε α) :
    ∀ remaining attempt,
      (∀ i, attempt ≤ i → i ≤ attempt + remaining → ∃ e, func i = .error e) →
      executeWithRetryGo retryDelay func attempt remaining =
        ⟨func (attempt + remaining), remaining + 1, remaining * retryDelay⟩ := by
  intro remaining
  induction remaining with
  | zero =>
    intro attempt h
    obtain ⟨e, he⟩ := h attempt le_rfl (by omega)
    simp [executeWithRetryGo, he]
  | succ r ih =>
    intro attempt h
    obtain ⟨e, he⟩ := h attempt le_rfl (by omega)
    have hrest := ih (attempt + 1) (fun i h1 h2 => h i (by omega) (by omega))
    have harith : attempt + 1 + r = attempt + (r + 1) := by omega
    simp only [executeWithRetryGo, he, hrest, harith, Nat.succ_mul]

/-- When the first success happens at attempt `k` within the budget, the
retry loop returns it after `k - attempt + 1` calls. -/
theorem executeWithRetryGo_first_success {ε α : Type} (retryDelay : Nat)
    (func : Nat → Except ε α) :
    ∀ remaining attempt k a,
      attempt ≤ k → k ≤ attempt + remaining →
      (∀ i, attempt ≤ i → i < k → ∃ e, func i = .error e) →
      func k = .ok a →
      executeWithRetryGo retryDelay func attempt remaining =
        ⟨.ok a, k - attempt + 1, (k - attempt) * retryDelay⟩ := by
  intro remaining
  induction remaining with
  | zero =>
    intro attempt k a h1 h2 h3 hk
    have hke : k = attempt := by omega
    subst hke
    simp [executeWithRetryGo, hk]
  | succ r ih =>
    intro attempt k a h1 h2 h3 hk
    by_cases hek : k = attempt
    · subst hek
      simp [executeWithRetryGo, hk]
    · obtain ⟨e, he⟩ := h3 attempt le_rfl (by omega)
      have hrest := ih (attempt + 1) k a (by omega) (by omega)
        (fun i hi1 hi2 => h3 i (by omega) hi2) hk
      have h4 : k - attempt = (k - (attempt + 1)) + 1 := by omega
      simp only [executeWithRetryGo, he, hrest, h4, Nat.succ_mul]

/-- C3 (amended): the retry wrapper catches every exception alike, so
*any* failure — retryable or fatal — is retried up to `retries` further
attempts with `retry_delay` between attempts; an error propagates only
after all `retries + 1` attempts failed, and a first success at attempt
`k` returns immediately after `k` sleeps. -/
theorem retry_executor_uniform_policy {ε α : Type} (retries retryDelay : Nat)
    (func : Nat → Except ε α) :
    ((∀ i, i ≤ retries → ∃ e, func i = .error e) →
      executeWithRetry retries retryDelay func =
        ⟨func retries, retries + 1, retries * retryDelay⟩) ∧
    (∀ k a, k ≤ retries → (∀ i, i < k → ∃ e, func i = .error e) →
      func k = .ok a →
      executeWithRetry retries retryDelay func =
        ⟨.ok a, k + 1, k * retryDelay⟩) := by
  constructor
  · intro h
    have hrun := executeWithRetryGo_all_fail retryDelay func retries 0
      (fun i h1 h2 => h i (by omega))
    simpa [executeWithRetry] using hrun
  · intro k a hk hfail hsucc
    have hrun := executeWithRetryGo_first_success retryDelay func retries 0 k a
      (by omega) (by omega) (fun i h1 h2 => hfail i h2) hsucc
    simpa [executeWithRetry] using hrun

/-- Witness for `retry_executor_uniform_policy` at a concrete fatal
error: `retries = 2`, `retry_delay = 7`, every attempt raising
`WriteRejected`; all three attempts are made and the error propagates at
the end. -/
theorem retry_executor_uniform_policy_witness :
    executeWithRetry 2 7
        (fun _ => (.error .writeRejected : Except OpErr Unit)) =
      ⟨.error .writeRejected, 3, 14⟩ :=
  (retry_executor_uniform_policy 2 7
    (fun _ => (.error .writeRejected : Except OpErr Unit))).1
    (fun i _ => ⟨.writeRejected, rfl⟩)

/-- C5 (amended): a page query rejected by the source
(`InfluxDBClientError`) is caught inside `query_data` and converted to
`None`; the retry wrapper therefore sees a successful call (exactly one
attempt, no retry), extraction turns `None` into zero points, and
`_transfer_data` completes the page as an empty period — the measurement
does not fail. -/
theorem query_error_treated_as_empty_result (retries retryDelay : Nat)
    (queryBackend : Nat → Except ClientErr ResultSet)
    (writerBackend : Nat → Except ClientErr Unit) (msg : String)
    (h : queryBackend 0 = .error (.influxDBClientError msg)) :
    transferData retries retryDelay queryBackend writerBackend =
      .emptyPeriod ∧
    (executeWithRetry retries retryDelay
        (fun i => queryData (queryBackend i))).attempts = 1 := by
  have hq : (fun i => queryData (queryBackend i)) 0 = .ok none := by
    simp [queryData, h]
  have hrun := executeWithRetryGo_first_success retryDelay
    (fun i => queryData (queryBackend i)) retries 0 0 none
    le_rfl (by omega) (fun i h1 h2 => absurd h2 (by omega)) hq
  constructor
  · simp [transferData, executeWithRetry, hrun, extractPointsFromResult]
  · simp [executeWithRetry, hrun]

/-- Witness for `query_error_treated_as_empty_result`: a concrete source
that rejects the query at every attempt. -/
theorem query_error_treated_as_empty_result_witness :
    transferData 4 9 (fun _ => .error (.influxDBClientError "bad query"))
        (fun _ => .ok ()) = .emptyPeriod ∧
    (executeWithRetry 4 9 (fun _ => queryData
        ((.error (.influxDBClientError "bad query") :
          Except ClientErr ResultSet)))).attempts = 1 :=
  query_error_treated_as_empty_result 4 9
    (fun _ => .error (.influxDBClientError "bad query"))
    (fun _ => .ok ()) "bad query" rfl

/-- Every point produced for one series comes from one of its rows: its
fields are exactly that row's filtered columns and are non-empty, and its
identity is the series key. -/
theorem extractSeriesPoints_shape (key : SeriesKey) :
    ∀ rows ps, extractSeriesPoints key rows = .ok ps →
      ∀ p ∈ ps, ∃ row ∈ rows, p.fields = rowFields row ∧ p.fields ≠ [] := by
  intro rows
  induction rows with
  | nil =>
    intro ps h p hp
    simp only [extractSeriesPoints] at h
    cases h
    simp at hp
  | cons r rest ih =>
    intro ps h p hp
    simp only [extractSeriesPoints] at h
    cases hlk : r.lookup "time" with
    | none => rw [hlk] at h; cases h
    | some t =>
      rw [hlk] at h
      cases hrec : extractSeriesPoints key rest with
      | error e => rw [hrec] at h; cases h
      | ok tail =>
        rw [hrec] at h
        dsimp only at h
        by_cases hf : rowFields r = []
        · rw [if_pos hf] at h
          rw [h] at hrec
          obtain ⟨row, hrow, hfs⟩ := ih ps hrec p hp
          exact ⟨row, List.mem_cons_of_mem r hrow, hfs⟩
        · rw [if_neg hf] at h
          injection h with h2
          rw [← h2] at hp
          rcases List.mem_cons.mp hp with hhead | htail
          · subst hhead
            exact ⟨r, List.mem_cons_self r rest, rfl, hf⟩
          · obtain ⟨row, hrow, hfs⟩ := ih tail hrec p htail
            exact ⟨row, List.mem_cons_of_mem r hrow, hfs⟩

/-- Every extracted point comes from a row of one of the result's series,
with its fields the row's filtered columns, non-empty. -/
theorem extractAllSeries_shape :
    ∀ rs ps, extractAllSeries rs = .ok ps →
      ∀ p ∈ ps, ∃ s ∈ rs, ∃ row ∈ s.2,
        p.fields = rowFields row ∧ p.fields ≠ [] := by
  intro rs
  induction rs with
  | nil =>
    intro ps h p hp
    simp only [extractAllSeries] at h
    cases h
    simp at hp
  | cons s rest ih =>
    intro ps h p hp
    obtain ⟨key, rows⟩ := s
    simp only [extractAllSeries] at h
    cases hser : extractSeriesPoints key rows with
    | error e => rw [hser] at h; cases h
    | ok here =>
      rw [hser] at h
      cases hrec : extractAllSeries rest with
      | error e => rw [hrec] at h; cases h
      | ok tail =>
        rw [hrec] at h
        cases h
        rcases List.mem_append.mp hp with hhere | htail
        · obtain ⟨row, hrow, hfs⟩ :=
            extractSeriesPoints_shape key rows here hser p hhere
          exact ⟨(key, rows), List.mem_cons_self _ _, row, hrow, hfs⟩
        · obtain ⟨s2, hs2, row, hrow, hfs⟩ := ih tail hrec p htail
          exact ⟨s2, List.mem_cons_of_mem _ hs2, row, hrow, hfs⟩

/-- C9: every point emitted by `extract_points_from_result` has a
non-empty field map, no `time` column among its fields, and only non-null
field values: a row whose columns are all null (besides `time`) is
dropped and never written. -/
theorem extracted_points_nonempty_nonnull (result : Option ResultSet)
    (ps : List Point) (hok : extractPointsFromResult result = .ok ps) :
    ∀ p ∈ ps, p.fields ≠ [] ∧
      ∀ kv ∈ p.fields, kv.1 ≠ "time" ∧ kv.2 ≠ PyVal.null := by
  intro p hp
  cases result with
  | none =>
    simp only [extractPointsFromResult] at hok
    cases hok
    simp at hp
  | some rs =>
    obtain ⟨s, _, row, _, hf, hne⟩ :=
      extractAllSeries_shape rs ps hok p hp
    refine ⟨hne, ?_⟩
    intro kv hkv
    rw [hf] at hkv
    have hpred := List.of_mem_filter hkv
    simpa using hpred

/-- Witness for `extracted_points_nonempty_nonnull` on a concrete result
with one null column and one valid one. -/
theorem extracted_points_nonempty_nonnull_witness :
    extractPointsFromResult (some [(⟨"cpu", [("host", "a")]⟩,
        [[("time", PyVal.str "T1"), ("v", PyVal.int 7),
          ("w", PyVal.null)]])]) =
      .ok [⟨"cpu", [("host", "a")], PyVal.str "T1",
        [("v", PyVal.int 7)]⟩] ∧
    ([("v", PyVal.int 7)] ≠ ([] : List (String × PyVal)) ∧
      ∀ kv ∈ [("v", PyVal.int 7)], kv.1 ≠ "time" ∧ kv.2 ≠ PyVal.null) :=
  ⟨rfl,
    extracted_points_nonempty_nonnull
      (some [(⟨"cpu", [("host", "a")]⟩,
        [[("time", PyVal.str "T1"), ("v", PyVal.int 7),
          ("w", PyVal.null)]])])
      [⟨"cpu", [("host", "a")], PyVal.str "T1", [("v", PyVal.int 7)]⟩]
      rfl
      ⟨"cpu", [("host", "a")], PyVal.str "T1", [("v", PyVal.int 7)]⟩
      (by simp)⟩

/-- C4 (amended): extraction keeps exactly a row's non-`time`, non-null
columns, so the emitted field keys stay within the active field set `F`
only under the additional assumption that every result column is either
`time` or a member of `F` (which the SELECT list provides when the server
introduces no extra columns); the extraction step itself applies no
restriction to `F`. -/
theorem extracted_fields_subset_of_result_columns (rs : ResultSet)
    (F : List String) (ps : List Point)
    (hok : extractPointsFromResult (some rs) = .ok ps)
    (hcols : ∀ s ∈ rs, ∀ row ∈ s.2, ∀ kv ∈ row,
      kv.1 = "time" ∨ kv.1 ∈ F) :
    ∀ p ∈ ps, ∀ kv ∈ p.fields, kv.1 ∈ F := by
  intro p hp kv hkv
  obtain ⟨s, hs, row, hrow, hf, _⟩ :=
    extractAllSeries_shape rs ps hok p hp
  rw [hf] at hkv
  have hmem : kv ∈ row := List.mem_of_mem_filter hkv
  have hpred := List.of_mem_filter hkv
  rcases hcols s hs row hrow kv hmem with h1 | h2
  · exfalso
    simp [h1] at hpred
  · exact h2

/-- Witness for `extracted_fields_subset_of_result_columns` on a concrete
result whose columns are limited to `time` and the field set. -/
theorem extracted_fields_subset_of_result_columns_witness :
    extractPointsFromResult (some [(⟨"cpu", []⟩,
        [[("time", PyVal.str "T1"), ("v", PyVal.int 7)]])]) =
      .ok [⟨"cpu", [], PyVal.str "T1", [("v", PyVal.int 7)]⟩] ∧
    (∀ p ∈ [(⟨"cpu", [], PyVal.str "T1",
        [("v", PyVal.int 7)]⟩ : Point)],
      ∀ kv ∈ p.fields, kv.1 ∈ ["v"]) :=
  ⟨rfl,
    extracted_fields_subset_of_result_columns
      [(⟨"cpu", []⟩, [[("time", PyVal.str "T1"), ("v", PyVal.int 7)]])]
      ["v"]
      [⟨"cpu", [], PyVal.str "T1", [("v", PyVal.int 7)]⟩]
      rfl
      (by decide)⟩

/-- One unfolding of the pagination loop under a positive page width. -/
theorem calculateDateRangesLoop_unfold (s e days : Int) :
    calculateDateRangesLoop s e days =
      if s < e ∧ 0 < days then
        (s, min (s + days * usPerDay) e) ::
          calculateDateRangesLoop (min (s + days * usPerDay) e) e days
      else [] := by
  rw [calculateDateRangesLoop]
  split_ifs with h
  · rfl
  · rfl

/-- The pagination loop produces the tiling shape for every positive page
width. -/
theorem calculateDateRangesLoop_tiling (days : Int) (hd : 0 < days) :
    ∀ n s e, (e - s).toNat ≤ n →
      Tiling (days * usPerDay) s e (calculateDateRangesLoop s e days) := by
  have hstep : 0 < days * usPerDay :=
    mul_pos hd (by norm_num [usPerDay, usPerHour, usPerMinute, usPerSecond])
  intro n
  induction n with
  | zero =>
    intro s e hle
    rw [calculateDateRangesLoop_unfold, if_neg (by omega)]
    exact Tiling.nil s e (by omega)
  | succ n ih =>
    intro s e hle
    by_cases hse : s < e
    · rw [calculateDateRangesLoop_unfold, if_pos ⟨hse, hd⟩]
      by_cases hend : s + days * usPerDay < e
      · have hmin : min (s + days * usPerDay) e = s + days * usPerDay :=
          by omega
        rw [hmin]
        exact Tiling.cons s e _ hend
          (ih (s + days * usPerDay) e (by omega))
      · have hmin : min (s + days * usPerDay) e = e := by omega
        rw [hmin, calculateDateRangesLoop_unfold, if_neg (by omega)]
        exact Tiling.last s e hse (by omega)
    · rw [calculateDateRangesLoop_unfold, if_neg (by omega)]
      exact Tiling.nil s e (by omega)

/-- A tiling covers each instant of `(s, e]` by exactly one window: no
overlap and no gap. -/
theorem Tiling.countP_eq {step : Int} {s e : Int} {R : List (Int × Int)}
    (hstep : 0 < step) (h : Tiling step s e R) :
    ∀ t : Int, (R.countP fun p => decide (p.1 < t) && decide (t ≤ p.2)) =
      if s < t ∧ t ≤ e then 1 else 0 := by
  induction h with
  | nil s e hle =>
    intro t
    simp only [List.countP_nil]
    rw [if_neg (by omega)]
  | last s e h1 h2 =>
    intro t
    simp only [List.countP_cons, List.countP_nil, Nat.zero_add,
      Bool.and_eq_true, decide_eq_true_eq]
  | cons s e rest h1 h2 ih =>
    intro t
    simp only [List.countP_cons, ih t, Bool.and_eq_true, decide_eq_true_eq]
    split_ifs <;> omega

/-- The pagination loop is empty exactly on an empty interval (positive
page width). -/
theorem calculateDateRangesLoop_nil_iff (s e days : Int) (hd : 0 < days) :
    calculateDateRangesLoop s e days = [] ↔ e ≤ s := by
  rw [calculateDateRangesLoop_unfold]
  constructor
  · intro h
    by_contra hlt
    rw [if_pos ⟨by omega, hd⟩] at h
    cases h
  · intro h
    rw [if_neg (by omega)]

/-- C6: for every start bound (epoch when absent), end bound (`now_utc`
when absent) and positive page width `W = days_of_pagination`, the
computed page list tiles `(t_start, t_end]` exactly: contiguous,
strictly ascending windows of `W` days each except the final one, which
is truncated to end at `t_end`; every instant of `(t_start, t_end]` is
covered by exactly one window (no overlap, no gap); the list is empty
exactly when `t_start >= t_end`. -/
theorem calculate_date_ranges_tiling (startTs endTs : Option Int)
    (nowUtc days : Int) (hd : 0 < days) :
    Tiling (days * usPerDay) (startTs.getD epochStart) (endTs.getD nowUtc)
      (calculateDateRanges startTs endTs nowUtc days) ∧
    (calculateDateRanges startTs endTs nowUtc days = [] ↔
      endTs.getD nowUtc ≤ startTs.getD epochStart) ∧
    ∀ t : Int,
      ((calculateDateRanges startTs endTs nowUtc days).countP
        fun p => decide (p.1 < t) && decide (t ≤ p.2)) =
      if startTs.getD epochStart < t ∧ t ≤ endTs.getD nowUtc then 1
      else 0 := by
  have hstep : 0 < days * usPerDay :=
    mul_pos hd (by norm_num [usPerDay, usPerHour, usPerMinute, usPerSecond])
  have htile := calculateDateRangesLoop_tiling days hd
    ((endTs.getD nowUtc - startTs.getD epochStart).toNat)
    (startTs.getD epochStart) (endTs.getD nowUtc) le_rfl
  refine ⟨htile, ?_, fun t => Tiling.countP_eq hstep htile t⟩
  exact calculateDateRangesLoop_nil_iff _ _ days hd

/-- Witness for `calculate_date_ranges_tiling`: a 16-day range with the
default 7-day page width. -/
theorem calculate_date_ranges_tiling_witness :
    (0 : Int) < 7 ∧
    Tiling (7 * usPerDay) 0 (16 * usPerDay)
      (calculateDateRanges (some 0) (some (16 * usPerDay)) 0 7) :=
  ⟨by decide,
    (calculate_date_ranges_tiling (some 0) (some (16 * usPerDay)) 0 7
      (by decide)).1⟩

/-- None of the seven duration unit characters is a digit. -/
theorem durationUnitChars_not_digit :
    ∀ c ∈ durationUnitChars, c.isDigit = false := by decide

/-- `takeWhile` consumes exactly a leading block that satisfies the
predicate when the next character (if any) fails it. -/
theorem takeWhile_append_all {p : Char → Bool} :
    ∀ ds rest : List Char, (∀ c ∈ ds, p c = true) →
      (∀ c, rest.head? = some c → p c = false) →
      (ds ++ rest).takeWhile p = ds := by
  intro ds
  induction ds with
  | nil =>
    intro rest h1 h2
    cases rest with
    | nil => rfl
    | cons c cs => simp [List.takeWhile_cons, h2 c rfl]
  | cons d ds ih =>
    intro rest h1 h2
    simp [List.takeWhile_cons, h1 d (List.mem_cons_self d ds),
      ih rest (fun c hc => h1 c (List.mem_cons_of_mem d hc)) h2]

/-- Unfolding of the backtracking step when a next character exists. -/
theorem backtrackSearch_succ_some {cs : List Char} {k : Nat} {c : Char}
    (h : (cs.drop (k + 1)).head? = some c) :
    backtrackSearch cs (k + 1) =
      if c ∈ durationUnitChars then
        some (digitsVal (cs.take (k + 1)), c)
      else backtrackSearch cs k := by
  simp only [backtrackSearch]
  rw [h]

/-- Unfolding of the backtracking step at the end of the string. -/
theorem backtrackSearch_succ_none {cs : List Char} {k : Nat}
    (h : (cs.drop (k + 1)).head? = none) :
    backtrackSearch cs (k + 1) = backtrackSearch cs k := by
  simp only [backtrackSearch]
  rw [h]

/-- When the leading digit run is not followed by a unit character, the
whole backtracking search fails: shrinking `\d+` only ever exposes more
digits, which are not unit characters either. -/
theorem backtrackSearch_fail {ds rest : List Char}
    (hdig : ∀ c ∈ ds, c.isDigit = true)
    (hrest : ∀ c, rest.head? = some c → c ∉ durationUnitChars) :
    ∀ k, k ≤ ds.length → backtrackSearch (ds ++ rest) k = none := by
  intro k
  induction k with
  | zero => intro _; rfl
  | succ k ih =>
    intro hk
    by_cases hlt : k + 1 < ds.length
    · have hdrop : (ds ++ rest).drop (k + 1) = ds.drop (k + 1) ++ rest :=
        List.drop_append_of_le_length (by omega)
      have hcons : ds.drop (k + 1) = ds[k + 1] :: ds.drop (k + 2) :=
        List.drop_eq_getElem_cons hlt
      have hhead : ((ds ++ rest).drop (k + 1)).head? = some ds[k + 1] := by
        rw [hdrop, hcons]; rfl
      rw [backtrackSearch_succ_some hhead]
      have hdmem : ds[k + 1] ∈ ds := List.getElem_mem hlt
      have hnotunit : ds[k + 1] ∉ durationUnitChars := by
        intro hmem
        have h1 := durationUnitChars_not_digit _ hmem
        have h2 := hdig _ hdmem
        rw [h1] at h2
        cases h2
      rw [if_neg hnotunit]
      exact ih (by omega)
    · have hk1 : k + 1 = ds.length := by omega
      have hdrop : (ds ++ rest).drop (k + 1) = rest := by
        rw [hk1]
        exact List.drop_left ds rest
      cases hr : rest.head? with
      | none =>
        rw [backtrackSearch_succ_none (by rw [hdrop]; exact hr)]
        exact ih (by omega)
      | some c =>
        rw [backtrackSearch_succ_some (by rw [hdrop]; exact hr)]
        rw [if_neg (hrest c hr)]
        exact ih (by omega)

/-- The regex match succeeds on a digit run followed by a unit character,
ignoring anything after the unit. -/
theorem parse_duration_ok_aux (ds : List Char) (u : Char) (rest : List Char)
    (hne : ds ≠ []) (hdig : ∀ c ∈ ds, c.isDigit = true)
    (hu : u ∈ durationUnitChars) :
    parseDuration (String.mk (ds ++ u :: rest)) =
      .ok (durationUnitValue (digitsVal ds) u) := by
  have hud : u.isDigit = false := durationUnitChars_not_digit u hu
  have htake : ((ds ++ u :: rest).takeWhile Char.isDigit) = ds :=
    takeWhile_append_all ds (u :: rest) hdig (fun c hc => by
      rw [List.head?_cons] at hc
      cases hc
      exact hud)
  obtain ⟨m, hm⟩ : ∃ m, ds.length = m + 1 := by
    cases ds with
    | nil => exact absurd rfl hne
    | cons d ds => exact ⟨ds.length, rfl⟩
  have hdrop : (ds ++ u :: rest).drop (m + 1) = u :: rest := by
    rw [← hm]
    exact List.drop_left ds (u :: rest)
  have htk : (ds ++ u :: rest).take (m + 1) = ds := by
    rw [← hm]
    exact List.take_left ds (u :: rest)
  have hmatch : regexMatchDuration (String.mk (ds ++ u :: rest)) =
      some (digitsVal ds, u) := by
    show backtrackSearch (ds ++ u :: rest)
      ((ds ++ u :: rest).takeWhile Char.isDigit).length = _
    rw [htake, hm, backtrackSearch_succ_some (by rw [hdrop]; rfl),
      if_pos hu, htk]
  show (match regexMatchDuration (String.mk (ds ++ u :: rest)) with
    | none => Except.error (PyErr.valueError
        ("Formato de duracion invalido: " ++ String.mk (ds ++ u :: rest)))
    | some (value, unit) => Except.ok (durationUnitValue value unit)) = _
  rw [hmatch]

/-- The parser raises `ValueError` when the input does not begin with a
digit. -/
theorem parse_duration_err_nondigit_aux (s : String)
    (h : ∀ c, s.toList.head? = some c → c.isDigit = false) :
    parseDuration s =
      .error (.valueError ("Formato de duracion invalido: " ++ s)) := by
  have htake : s.toList.takeWhile Char.isDigit = [] := by
    cases hs : s.toList with
    | nil => rfl
    | cons c cs =>
      have hc := h c (by rw [hs]; rfl)
      simp [List.takeWhile_cons, hc]
  have hmatch : regexMatchDuration s = none := by
    show backtrackSearch s.toList (s.toList.takeWhile Char.isDigit).length = _
    rw [htake]
    rfl
  show (match regexMatchDuration s with
    | none => Except.error (PyErr.valueError ("Formato de duracion invalido: " ++ s))
    | some (value, unit) => Except.ok (durationUnitValue value unit)) = _
  rw [hmatch]

/-- The parser raises `ValueError` when the leading digit run is not
immediately followed by a unit character. -/
theorem parse_duration_err_no_unit_aux (ds rest : List Char)
    (hdig : ∀ c ∈ ds, c.isDigit = true)
    (hrest : ∀ c, rest.head? = some c →
      c.isDigit = false ∧ c ∉ durationUnitChars) :
    parseDuration (String.mk (ds ++ rest)) =
      .error (.valueError
        ("Formato de duracion invalido: " ++ String.mk (ds ++ rest))) := by
  have htake : ((ds ++ rest).takeWhile Char.isDigit) = ds :=
    takeWhile_append_all ds rest hdig (fun c hc => (hrest c hc).1)
  have hmatch : regexMatchDuration (String.mk (ds ++ rest)) = none := by
    show backtrackSearch (ds ++ rest)
      ((ds ++ rest).takeWhile Char.isDigit).length = _
    rw [htake]
    exact backtrackSearch_fail hdig (fun c hc => (hrest c hc).2)
      ds.length le_rfl
  show (match regexMatchDuration (String.mk (ds ++ rest)) with
    | none => Except.error (PyErr.valueError
        ("Formato de duracion invalido: " ++ String.mk (ds ++ rest)))
    | some (value, unit) => Except.ok (durationUnitValue value unit)) = _
  rw [hmatch]

/-- C8 (amended): the duration parser accepts exactly the strings that
*begin with* an integer immediately followed by one unit character from
`{s, m, h, d, w, M, y}` — any trailing characters after the unit are
ignored, because the regular expression is not anchored at the end — with
`M` exactly 30 days and `y` exactly 365 days; it raises `ValueError` when
the input does not begin with digits or when the leading digit run is not
immediately followed by a unit character. -/
theorem parse_duration_prefix_semantics :
    (∀ ds u rest, ds ≠ [] → (∀ c ∈ ds, c.isDigit = true) →
      u ∈ durationUnitChars →
      parseDuration (String.mk (ds ++ u :: rest)) =
        .ok (durationUnitValue (digitsVal ds) u)) ∧
    (∀ s : String, (∀ c, s.toList.head? = some c → c.isDigit = false) →
      parseDuration s =
        .error (.valueError ("Formato de duracion invalido: " ++ s))) ∧
    (∀ ds rest, (∀ c ∈ ds, c.isDigit = true) →
      (∀ c, rest.head? = some c →
        c.isDigit = false ∧ c ∉ durationUnitChars) →
      parseDuration (String.mk (ds ++ rest)) =
        .error (.valueError
          ("Formato de duracion invalido: " ++ String.mk (ds ++ rest)))) ∧
    (∀ n : Nat, durationUnitValue n 'M' = n * 30 * usPerDay ∧
      durationUnitValue n 'y' = n * 365 * usPerDay) :=
  ⟨fun ds u rest h1 h2 h3 => parse_duration_ok_aux ds u rest h1 h2 h3,
    fun s h => parse_duration_err_nondigit_aux s h,
    fun ds rest h1 h2 => parse_duration_err_no_unit_aux ds rest h1 h2,
    fun n => ⟨rfl, rfl⟩⟩

/-- Witness for `parse_duration_prefix_semantics`: the concrete string
`"45mx"` parses to 45 minutes, ignoring the trailing `x`. -/
theorem parse_duration_prefix_semantics_witness :
    parseDuration (String.mk (['4', '5'] ++ 'm' :: ['x'])) =
      .ok (durationUnitValue (digitsVal ['4', '5']) 'm') :=
  parse_duration_prefix_semantics.1 ['4', '5'] 'm' ['x']
    (by decide) (by decide) (by decide)

end BackupInfluxdb
